import Mathlib

/-!
Verification of the Advent-of-Code leaderboard statistics tool
(`src/aoc-times.ts`) against its natural-language specification.

The TypeScript source is shallowly embedded below: every `def` mirrors one
construct of `aoc-times.ts`. JavaScript `number` values that the program
only ever uses as integers (timestamps, scores, star counts, second
offsets) are embedded as `ℤ` (or `ℕ` for loop counters and day numbers);
JavaScript objects used as maps are embedded as association lists looked up
with `List.lookup`; `null`/`undefined` becomes `Option`; `Array.sort`,
which ECMAScript requires to be a stable sort consistent with the
comparator, is embedded as `List.insertionSort` (a stable sort) on the
comparator's induced relation; `Math.round q` is `⌊q + 1/2⌋` (ECMAScript's
round-half-toward-positive-infinity); `Object.values` on an object whose
keys are canonical integer strings enumerates those keys in ascending
numeric order, per the ECMAScript property-enumeration order, and is
embedded accordingly.
-/

namespace AocTimes

/-- `const DAY_1_UNLOCK = 1764565200` (aoc-times.ts line 54). -/
def DAY_1_UNLOCK : ℤ := 1764565200

/-- `const SECONDS_PER_DAY = 86400` (aoc-times.ts line 55). -/
def SECONDS_PER_DAY : ℤ := 86400

/-- `getPuzzleUnlock` (aoc-times.ts lines 100-102):
`DAY_1_UNLOCK + (day - 1) * SECONDS_PER_DAY`. -/
def getPuzzleUnlock (day : ℤ) : ℤ :=
  DAY_1_UNLOCK + (day - 1) * SECONDS_PER_DAY

/-- `formatDuration` (aoc-times.ts lines 81-98). The argument is the signed
integer second count; for non-negative input the JS `Math.floor` divisions
and `%` on non-negative integers coincide with `ℕ` division and modulo. -/
def formatDuration (seconds : ℤ) : String :=
  if seconds < 0 then "N/A"
  else
    let s : ℕ := seconds.toNat
    let days : ℕ := s / 86400
    let hours : ℕ := s % 86400 / 3600
    let mins : ℕ := s % 3600 / 60
    let secs : ℕ := s % 60
    if days > 0 then
      toString days ++ "d " ++ toString hours ++ "h " ++ toString mins ++ "m"
    else if hours > 0 then
      toString hours ++ "h " ++ toString mins ++ "m " ++ toString secs ++ "s"
    else if mins > 0 then
      toString mins ++ "m " ++ toString secs ++ "s"
    else
      toString secs ++ "s"

/-- One day's entry of `completion_day_level` (aoc-times.ts lines 57-62):
keys `'1'` and `'2'`, each optionally holding a `get_star_ts` timestamp. -/
structure DayCompletion where
  part1_ts : Option ℤ
  part2_ts : Option ℤ
deriving DecidableEq, Repr

/-- `Member` (aoc-times.ts lines 64-71); `completion_day_level` is the JS
object keyed by the decimal day number, embedded as an association list. -/
structure Member where
  id : ℤ
  name : String
  stars : ℤ
  local_score : ℤ
  last_star_ts : ℤ
  completion_day_level : List (ℕ × DayCompletion)
deriving DecidableEq, Repr

/-- `LeaderboardData` (aoc-times.ts lines 73-79); `members` is the JS object
keyed by the member's numeric id rendered as a canonical integer string,
embedded as an association list of (id, member). -/
structure LeaderboardData where
  event : String
  owner_id : ℤ
  members : List (ℕ × Member)
  num_days : ℕ
  day1_ts : ℤ
deriving DecidableEq, Repr

/-- `Object.values(data.members)` (aoc-times.ts line 124). ECMAScript
enumerates the canonical integer-string keys of an object in ascending
numeric order, independently of insertion order, so the values come out
sorted by id. -/
def objectValues (m : List (ℕ × Member)) : List Member :=
  (List.insertionSort (fun a b : ℕ × Member => a.1 ≤ b.1) m).map Prod.snd

/-- The comparator passed to `.sort` for the overall leaderboard
(aoc-times.ts lines 124-128), returning the JS comparator value. -/
def jsCompare (a b : Member) : ℤ :=
  if b.local_score ≠ a.local_score then b.local_score - a.local_score
  else if b.stars ≠ a.stars then b.stars - a.stars
  else a.last_star_ts - b.last_star_ts

/-- The ordering induced by `jsCompare`: `a` sorts no later than `b`
exactly when the comparator is non-positive. -/
def memberLe (a b : Member) : Prop := jsCompare a b ≤ 0

instance : DecidableRel memberLe :=
  fun a b => inferInstanceAs (Decidable (jsCompare a b ≤ 0))

/-- `const members = Object.values(data.members).sort(...)`
(aoc-times.ts lines 124-128), with the ECMAScript stable sort embedded as
`insertionSort`. -/
def sortedMembers (data : LeaderboardData) : List Member :=
  List.insertionSort memberLe (objectValues data.members)

/-- `member.name || \x60Anonymous #id\x60` (aoc-times.ts line 143): the
empty string is the falsy case for a `string` field. -/
def displayName (m : Member) : String :=
  if m.name = "" then "Anonymous #" ++ toString m.id else m.name

/-- `part1Ts ? part1Ts - unlock : null` (aoc-times.ts lines 154-155):
a present and *truthy* (non-zero) timestamp yields the offset, anything
else yields `null`. -/
def offsetOf (ts : Option ℤ) (unlock : ℤ) : Option ℤ :=
  match ts with
  | some t => if t ≠ 0 then some (t - unlock) else none
  | none => none

/-- The value stored in the `times` map for one day
(aoc-times.ts lines 153-156). -/
structure DayTimes where
  part1 : Option ℤ
  part2 : Option ℤ
deriving DecidableEq, Repr

/-- The body of the day loop of aoc-times.ts lines 146-157: when
`completion_day_level[day]` exists, the pair of truthiness-guarded offsets
stored for the day; otherwise nothing is stored. -/
def timesEntry (m : Member) (day : ℕ) : Option DayTimes :=
  (m.completion_day_level.lookup day).map fun dayData =>
    ⟨offsetOf dayData.part1_ts (getPuzzleUnlock day),
     offsetOf dayData.part2_ts (getPuzzleUnlock day)⟩

/-- The per-member `times` map built by the loop of aoc-times.ts lines
146-157: one entry per day of `1..numDays` whose `completion_day_level`
entry exists. -/
def computeTimes (m : Member) (numDays : ℕ) : List (ℕ × DayTimes) :=
  (List.range' 1 numDays).filterMap fun day =>
    (timesEntry m day).map fun dt => (day, dt)

/-- `MemberStats` (aoc-times.ts lines 133-138). -/
structure MemberStats where
  name : String
  score : ℤ
  stars : ℤ
  times : List (ℕ × DayTimes)
deriving DecidableEq, Repr

/-- The `memberStats` array built by aoc-times.ts lines 140-161, in the
sorted member order. -/
def buildStats (data : LeaderboardData) : List MemberStats :=
  (sortedMembers data).map fun m =>
    ⟨displayName m, m.local_score, m.stars, computeTimes m data.num_days⟩

/-- `m.times.get(day)?.part1` (flattened through the optional chain). -/
def p1Offset (s : MemberStats) (day : ℕ) : Option ℤ :=
  (s.times.lookup day).bind DayTimes.part1

/-- `m.times.get(day)?.part2` (flattened through the optional chain). -/
def p2Offset (s : MemberStats) (day : ℕ) : Option ℤ :=
  (s.times.lookup day).bind DayTimes.part2

/-- The part-1 offsets accumulated into `p1Total`/`p1Count` for a day
(aoc-times.ts lines 170-175): one value per member whose `part1 != null`. -/
def presentP1 (stats : List MemberStats) (day : ℕ) : List ℤ :=
  stats.filterMap fun m => p1Offset m day

/-- The part-2 offsets accumulated into `p2Total`/`p2Count` for a day
(aoc-times.ts lines 170-179). -/
def presentP2 (stats : List MemberStats) (day : ℕ) : List ℤ :=
  stats.filterMap fun m => p2Offset m day

/-- ECMAScript `Math.round`: round to nearest, halves toward positive
infinity, i.e. `⌊q + 1/2⌋`. -/
def jsRound (q : ℚ) : ℤ := ⌊q + 1 / 2⌋

/-- `count > 0 ? Math.round(total / count) : null`
(aoc-times.ts lines 182-183), for the offset list of one day and part. -/
def avgOf (l : List ℤ) : Option ℤ :=
  if l.length = 0 then none
  else some (jsRound ((l.sum : ℚ) / (l.length : ℚ)))

/-- The `dayAverages` entry for one day (aoc-times.ts lines 163-185):
part-1 and part-2 averages computed independently. -/
def dayAvg (stats : List MemberStats) (day : ℕ) : Option ℤ × Option ℤ :=
  (avgOf (presentP1 stats day), avgOf (presentP2 stats day))

/-- One row of a per-day table (aoc-times.ts lines 216-220). -/
structure DayRow where
  name : String
  p1 : ℤ
  p2 : Option ℤ
deriving DecidableEq, Repr

/-- The ordering induced by the per-day comparator
`(a, b) => a.p1 - b.p1` (aoc-times.ts line 221). -/
def rowLe (a b : DayRow) : Prop := a.p1 ≤ b.p1

instance : DecidableRel rowLe :=
  fun a b => inferInstanceAs (Decidable (a.p1 ≤ b.p1))

/-- The `.filter(...).map(...)` stage of `dayCompletions`
(aoc-times.ts lines 214-220): exactly the members whose part-1 offset for
the day is non-null, carried over with name and both offsets. -/
def unsortedCompletions (stats : List MemberStats) (day : ℕ) : List DayRow :=
  stats.filterMap fun m =>
    match p1Offset m day with
    | some t => some ⟨m.name, t, p2Offset m day⟩
    | none => none

/-- `dayCompletions` (aoc-times.ts lines 214-221): filter, map, then the
stable `.sort((a, b) => a.p1 - b.p1)`. -/
def dayCompletions (stats : List MemberStats) (day : ℕ) : List DayRow :=
  List.insertionSort rowLe (unsortedCompletions stats day)

/-- One emitted per-day table (aoc-times.ts lines 225-245): its day
number, its ranked rows, and the two averages of its trailing row. -/
structure DayTable where
  day : ℕ
  rows : List DayRow
  avgP1 : Option ℤ
  avgP2 : Option ℤ
deriving DecidableEq, Repr

/-- One iteration of the per-day loop body (aoc-times.ts lines 210-246):
`none` when `dayCompletions` is empty (`continue`, line 223), otherwise
the emitted table. -/
def tableFor (data : LeaderboardData) (day : ℕ) : Option DayTable :=
  let rows := dayCompletions (buildStats data) day
  if rows = [] then none
  else some ⟨day, rows, (dayAvg (buildStats data) day).1,
             (dayAvg (buildStats data) day).2⟩

/-- The per-day tables emitted by the loop of aoc-times.ts lines 210-246,
one iteration per day of `1..num_days`. -/
def dailyTables (data : LeaderboardData) : List DayTable :=
  (List.range' 1 data.num_days).filterMap (tableFor data)

/-- The transport-level response seen by `main` (aoc-times.ts lines
107-121): its HTTP status, its status text, and the result of reading the
body as a `LeaderboardData` value (`.error` when `response.json()` or any
later step of processing the payload throws). -/
structure FetchResponse where
  status : ℕ
  statusText : String
  body : Except String LeaderboardData

/-- `response.ok`: the WHATWG fetch `ok` flag, status in the range
200-299. -/
def responseOk (r : FetchResponse) : Bool :=
  decide (200 ≤ r.status ∧ r.status < 300)

/-- The observable outcome of one process run: the exit code, how many
fetches were issued, the lines written to the error stream, the overall
leaderboard rows rendered, and the per-day tables rendered. -/
structure RunOutcome where
  exitCode : ℕ
  fetchCount : ℕ
  errorOutput : List String
  leaderboardRows : List MemberStats
  tables : List DayTable

/-- `main` plus the top-level `main().catch(console.error)`
(aoc-times.ts lines 104-249): one fetch; on `!response.ok` report
`Failed to fetch: status statusText` and `process.exit(1)` before any
table is rendered; on a body-processing throw the rejection is caught by
`.catch(console.error)`, which prints the error, and the process then
terminates normally with exit code 0; otherwise render and exit 0. -/
def runMain (r : FetchResponse) : RunOutcome :=
  if responseOk r then
    match r.body with
    | .ok data => ⟨0, 1, [], buildStats data, dailyTables data⟩
    | .error e => ⟨0, 1, [e], [], []⟩
  else
    ⟨1, 1, ["Failed to fetch: " ++ toString r.status ++ " " ++ r.statusText],
     [], []⟩

/-- C7: for every day number, the unlock instant is the fixed day-1
constant plus `(day - 1) * 86400`, consecutive unlock instants differ by
exactly 86400 seconds, and unlock instants are strictly increasing. -/
theorem unlock_formula_and_monotone (d : ℤ) :
    getPuzzleUnlock 1 = DAY_1_UNLOCK ∧
    getPuzzleUnlock d = getPuzzleUnlock 1 + (d - 1) * 86400 ∧
    getPuzzleUnlock (d + 1) - getPuzzleUnlock d = 86400 ∧
    getPuzzleUnlock d < getPuzzleUnlock (d + 1) := by
  unfold getPuzzleUnlock DAY_1_UNLOCK SECONDS_PER_DAY
  refine ⟨by ring, by ring, by ring, by nlinarith⟩

/-- C6: `formatDuration` renders every negative input as `N/A`; a
non-negative input decomposes as days/hours/minutes/seconds in the
standard 24h/60m/60s base (the decomposition reassembles to the input and
each component is within range) and is rendered coarsest-unit-first,
showing days+hours+minutes when days are present (seconds dropped),
hours+minutes+seconds when hours are the coarsest unit, minutes+seconds
when minutes are, and seconds alone otherwise; and the five specified
sample points evaluate as specified. -/
theorem formatDuration_spec (z : ℤ) :
    (z < 0 → formatDuration z = "N/A") ∧
    (0 ≤ z →
      (z.toNat = z.toNat / 86400 * 86400 + z.toNat % 86400 / 3600 * 3600 +
        z.toNat % 3600 / 60 * 60 + z.toNat % 60 ∧
       z.toNat % 86400 / 3600 < 24 ∧ z.toNat % 3600 / 60 < 60 ∧
       z.toNat % 60 < 60) ∧
      formatDuration z =
        (if z.toNat / 86400 > 0 then
          toString (z.toNat / 86400) ++ "d " ++
            toString (z.toNat % 86400 / 3600) ++ "h " ++
            toString (z.toNat % 3600 / 60) ++ "m"
        else if z.toNat % 86400 / 3600 > 0 then
          toString (z.toNat % 86400 / 3600) ++ "h " ++
            toString (z.toNat % 3600 / 60) ++ "m " ++
            toString (z.toNat % 60) ++ "s"
        else if z.toNat % 3600 / 60 > 0 then
          toString (z.toNat % 3600 / 60) ++ "m " ++
            toString (z.toNat % 60) ++ "s"
        else toString (z.toNat % 60) ++ "s")) ∧
    formatDuration (-1) = "N/A" ∧ formatDuration 0 = "0s" ∧
    formatDuration 65 = "1m 5s" ∧ formatDuration 3661 = "1h 1m 1s" ∧
    formatDuration 90000 = "1d 1h 0m" := by
  refine ⟨fun h => by simp [formatDuration, h], fun h => ⟨⟨?_, ?_, ?_, ?_⟩, ?_⟩,
    by decide, by decide, by decide, by decide, by decide⟩
  · omega
  · omega
  · omega
  · omega
  · simp only [formatDuration, if_neg (by omega : ¬ z < 0)]

/-- `memberLe` spelt out: the JS comparator value is non-positive exactly
when the left member wins on score, or ties and wins on stars, or ties on
both and has the earlier (or equal) last-star timestamp. -/
lemma memberLe_iff (a b : Member) :
    memberLe a b ↔
      (b.local_score < a.local_score ∨
        (b.local_score = a.local_score ∧ b.stars < a.stars) ∨
        (b.local_score = a.local_score ∧ b.stars = a.stars ∧
          a.last_star_ts ≤ b.last_star_ts)) := by
  unfold memberLe jsCompare
  split_ifs <;> omega

lemma memberLe_total (a b : Member) : memberLe a b ∨ memberLe b a := by
  rw [memberLe_iff, memberLe_iff]; omega

lemma memberLe_trans (a b c : Member) :
    memberLe a b → memberLe b c → memberLe a c := by
  rw [memberLe_iff, memberLe_iff, memberLe_iff]; omega

lemma memberLe_refl (a : Member) : memberLe a a := by
  rw [memberLe_iff]; omega

/-- C2: the overall leaderboard order. The comparator relation is exactly
the three-key rule (higher `local_score` first, then higher `stars`, then
earlier `last_star_ts`), it is a total, transitive, reflexive (hence total
pre-) order, and for every snapshot the rendered member sequence is sorted
by it and is a permutation of the members enumerated from the mapping.
Determinism holds because `sortedMembers` is a function of the snapshot. -/
theorem overall_ranking_three_key (data : LeaderboardData) :
    (∀ a b : Member, memberLe a b ↔
      (b.local_score < a.local_score ∨
        (b.local_score = a.local_score ∧ b.stars < a.stars) ∨
        (b.local_score = a.local_score ∧ b.stars = a.stars ∧
          a.last_star_ts ≤ b.last_star_ts))) ∧
    (∀ a b : Member, memberLe a b ∨ memberLe b a) ∧
    (∀ a b c : Member, memberLe a b → memberLe b c → memberLe a c) ∧
    (∀ a : Member, memberLe a a) ∧
    (sortedMembers data).Sorted memberLe ∧
    (sortedMembers data).Perm (objectValues data.members) := by
  refine ⟨memberLe_iff, memberLe_total, memberLe_trans, memberLe_refl, ?_, ?_⟩
  · haveI : IsTotal Member memberLe := ⟨memberLe_total⟩
    haveI : IsTrans Member memberLe := ⟨memberLe_trans⟩
    exact List.sorted_insertionSort memberLe (objectValues data.members)
  · exact List.perm_insertionSort memberLe (objectValues data.members)

/-- Replace the members mapping of a snapshot, keeping all other fields. -/
def withMembers (d : LeaderboardData) (m : List (ℕ × Member)) :
    LeaderboardData :=
  ⟨d.event, d.owner_id, m, d.num_days, d.day1_ts⟩

/-- Sorting member entries ascending by key is insensitive to the order the
entries arrive in, as long as the keys are distinct: a strictly key-sorted
arrangement of a set of entries is unique. -/
lemma insertionSort_key_perm_eq {m₁ m₂ : List (ℕ × Member)}
    (hperm : m₁.Perm m₂) (hnd : (m₁.map Prod.fst).Nodup) :
    List.insertionSort (fun a b : ℕ × Member => a.1 ≤ b.1) m₁ =
      List.insertionSort (fun a b : ℕ × Member => a.1 ≤ b.1) m₂ := by
  haveI : IsTotal (ℕ × Member) (fun a b => a.1 ≤ b.1) :=
    ⟨fun a b => Nat.le_total a.1 b.1⟩
  haveI : IsTrans (ℕ × Member) (fun a b => a.1 ≤ b.1) :=
    ⟨fun a b c hab hbc => Nat.le_trans hab hbc⟩
  haveI : IsAntisymm (ℕ × Member) (fun a b => a.1 < b.1) :=
    ⟨fun a b hab hba => absurd (Nat.lt_trans hab hba) (Nat.lt_irrefl a.1)⟩
  have p₁ := List.perm_insertionSort (fun a b : ℕ × Member => a.1 ≤ b.1) m₁
  have p₂ := List.perm_insertionSort (fun a b : ℕ × Member => a.1 ≤ b.1) m₂
  have hnd₂ : (m₂.map Prod.fst).Nodup := ((hperm.map Prod.fst).nodup_iff).mp hnd
  have strict : ∀ (l : List (ℕ × Member)), (l.map Prod.fst).Nodup →
      ∀ l' : List (ℕ × Member),
        l'.Perm l → l'.Sorted (fun a b => a.1 ≤ b.1) →
        l'.Sorted (fun a b => a.1 < b.1) := by
    intro l hl l' hp hs
    have hne : (l'.map Prod.fst).Nodup := ((hp.map Prod.fst).nodup_iff).mpr hl
    have hpw : l'.Pairwise (fun a b => a.1 ≠ b.1) := List.pairwise_map.mp hne
    exact (hs.and hpw).imp fun h => Nat.lt_of_le_of_ne h.1 h.2
  have s₁ := strict m₁ hnd _ p₁ (List.sorted_insertionSort _ m₁)
  have s₂ := strict m₂ hnd₂ _ p₂ (List.sorted_insertionSort _ m₂)
  exact List.eq_of_perm_of_sorted ((p₁.trans hperm).trans p₂.symm) s₁ s₂

/-- C9: rendering is insensitive to the enumeration order of the members
mapping. ECMAScript enumerates an object's canonical integer keys in
ascending numeric order regardless of insertion order, so any permutation
of the mapping's entries (its keys being distinct, as keys of a mapping
are) yields the same `Object.values` array, hence the same ranked
leaderboard, the same stats, the same per-day tables and the same run
outcome — including when two participants tie on all three comparator
keys. Each run is the value of a pure function of the snapshot, so
repeated runs on the same input cannot reorder or crash. -/
theorem rendering_insensitive_to_member_order (data : LeaderboardData)
    (m₂ : List (ℕ × Member)) (hperm : data.members.Perm m₂)
    (hnd : (data.members.map Prod.fst).Nodup) :
    objectValues data.members = objectValues m₂ ∧
    sortedMembers data = sortedMembers (withMembers data m₂) ∧
    buildStats data = buildStats (withMembers data m₂) ∧
    dailyTables data = dailyTables (withMembers data m₂) ∧
    runMain ⟨200, "OK", Except.ok data⟩ =
      runMain ⟨200, "OK", Except.ok (withMembers data m₂)⟩ := by
  have hov : objectValues data.members = objectValues m₂ := by
    unfold objectValues
    rw [insertionSort_key_perm_eq hperm hnd]
  have hsm : sortedMembers data = sortedMembers (withMembers data m₂) := by
    unfold sortedMembers withMembers
    rw [hov]
  have hbs : buildStats data = buildStats (withMembers data m₂) := by
    unfold buildStats
    rw [hsm]
    rfl
  have hdt : dailyTables data = dailyTables (withMembers data m₂) := by
    unfold dailyTables tableFor
    rw [hbs]
    rfl
  refine ⟨hov, hsm, hbs, hdt, ?_⟩
  simp only [runMain, responseOk]
  rw [hbs, hdt]

/-- A member used by the C9 witness: ties `memberTieB` on all three
comparator keys. -/
def memberTieA : Member := ⟨1, "A", 2, 10, 100, []⟩

/-- A member used by the C9 witness: ties `memberTieA` on all three
comparator keys. -/
def memberTieB : Member := ⟨2, "B", 2, 10, 100, []⟩

/-- A concrete snapshot whose two members tie on every comparator key. -/
def tieData : LeaderboardData :=
  ⟨"2025", 0, [(1, memberTieA), (2, memberTieB)], 1, 0⟩

/-- Witness for C9 at a concrete snapshot whose two members tie on all
three keys: reversing the mapping's entries changes neither the
enumeration nor the ranked order. -/
theorem rendering_insensitive_to_member_order_witness :
    objectValues [(1, memberTieA), (2, memberTieB)] =
      objectValues [(2, memberTieB), (1, memberTieA)] ∧
    sortedMembers tieData =
      sortedMembers (withMembers tieData [(2, memberTieB), (1, memberTieA)]) :=
  ⟨(rendering_insensitive_to_member_order tieData
      [(2, memberTieB), (1, memberTieA)] (by decide) (by decide)).1,
   (rendering_insensitive_to_member_order tieData
      [(2, memberTieB), (1, memberTieA)] (by decide) (by decide)).2.1⟩

/-- Looking a key up in a key-tagged `filterMap` image misses when the key
was not among the inputs. -/
lemma lookup_filterMap_of_not_mem {β : Type} (g : ℕ → Option β) :
    ∀ (l : List ℕ) (d : ℕ), d ∉ l →
      ((l.filterMap fun x => (g x).map fun b => (x, b)).lookup d) = none := by
  intro l
  induction l with
  | nil => intro d _; rfl
  | cons x xs ih =>
    intro d hd
    have hdx : d ≠ x := fun h => hd (h ▸ List.mem_cons_self x xs)
    have hdxs : d ∉ xs := fun h => hd (List.mem_cons_of_mem x h)
    rw [List.filterMap_cons]
    cases hgx : g x with
    | none => exact ih d hdxs
    | some b =>
      simp only [Option.map_some']
      rw [List.lookup_cons, beq_eq_false_iff_ne.mpr hdx]
      exact ih d hdxs

/-- Looking a key up in a key-tagged `filterMap` image over distinct keys
recovers exactly the generating function's value at that key. -/
lemma lookup_filterMap_of_mem {β : Type} (g : ℕ → Option β) :
    ∀ (l : List ℕ), l.Nodup → ∀ d ∈ l,
      ((l.filterMap fun x => (g x).map fun b => (x, b)).lookup d) = g d := by
  intro l
  induction l with
  | nil => intro _ d hd; exact absurd hd (List.not_mem_nil d)
  | cons x xs ih =>
    intro hnd d hd
    have hx : x ∉ xs := (List.nodup_cons.mp hnd).1
    have hxs : xs.Nodup := (List.nodup_cons.mp hnd).2
    rw [List.filterMap_cons]
    rcases List.mem_cons.mp hd with rfl | hdxs
    · cases hgx : g d with
      | none => exact lookup_filterMap_of_not_mem g xs d hx
      | some b =>
        simp only [Option.map_some']
        rw [List.lookup_cons, beq_self_eq_true]
    · have hdx : d ≠ x := fun h => hx (h ▸ hdxs)
      cases hgx : g x with
      | none => exact ih hxs d hdxs
      | some b =>
        simp only [Option.map_some']
        rw [List.lookup_cons, beq_eq_false_iff_ne.mpr hdx]
        exact ih hxs d hdxs

/-- For an in-range day, the `times` map holds exactly what the loop body
produced for that day. -/
lemma computeTimes_lookup (m : Member) (numDays day : ℕ)
    (h1 : 1 ≤ day) (h2 : day ≤ numDays) :
    (computeTimes m numDays).lookup day = timesEntry m day := by
  unfold computeTimes
  exact lookup_filterMap_of_mem (timesEntry m) (List.range' 1 numDays)
    (List.nodup_range' 1 numDays) day (List.mem_range'_1.mpr ⟨h1, by omega⟩)

/-- `offsetOf` produces a value exactly for a present, truthy (non-zero)
timestamp, and that value is the timestamp minus the unlock instant. -/
lemma offsetOf_eq_some_iff (ts : Option ℤ) (unlock o : ℤ) :
    offsetOf ts unlock = some o ↔
      ∃ t, ts = some t ∧ t ≠ 0 ∧ o = t - unlock := by
  cases ts with
  | none => simp [offsetOf]
  | some t =>
    rcases eq_or_ne t 0 with rfl | h
    · simp [offsetOf]
    · simp only [offsetOf, if_pos h, Option.some_inj]
      constructor
      · intro ho; exact ⟨t, rfl, h, ho.symm⟩
      · rintro ⟨t', ht', _, rfl⟩
        cases ht'
        rfl

/-- A member whose day-1 part-1 completion timestamp is present in the
snapshot but equal to `0`, the one falsy number: the truthiness guard of
aoc-times.ts line 154 then discards it. -/
def zeroTsMember : Member := ⟨7, "Zero", 1, 0, 0, [(1, ⟨some 0, none⟩)]⟩

/-- Counterexample to C3 as stated: for `zeroTsMember`, day 1, part 1,
the completion timestamp is present in the snapshot (`some 0`) yet the
computed offset is absent, so "offset present iff completion timestamp
present" fails at timestamp `0`. -/
theorem offset_presence_counterexample :
    zeroTsMember.completion_day_level.lookup 1 =
      some (DayCompletion.mk (some 0) none) ∧
    (computeTimes zeroTsMember 1).lookup 1 = some (DayTimes.mk none none) ∧
    ((computeTimes zeroTsMember 1).lookup 1).bind DayTimes.part1 = none := by
  refine ⟨rfl, ?_, ?_⟩ <;> decide

/-- C3 as amended: for every in-range day and each part, the offset is
present iff that part's completion timestamp is present *and non-zero*
(the JS truthiness guard), and when present it equals the timestamp minus
the day's unlock instant, in plain integer seconds. An absent (or zero)
timestamp yields an absent offset, distinguishable from an offset of 0. -/
theorem offset_present_iff_ts_truthy (m : Member) (numDays day : ℕ)
    (h1 : 1 ≤ day) (h2 : day ≤ numDays) :
    (∀ o : ℤ,
      ((computeTimes m numDays).lookup day).bind DayTimes.part1 = some o ↔
        ∃ dd, m.completion_day_level.lookup day = some dd ∧
          ∃ ts, dd.part1_ts = some ts ∧ ts ≠ 0 ∧
            o = ts - getPuzzleUnlock day) ∧
    (∀ o : ℤ,
      ((computeTimes m numDays).lookup day).bind DayTimes.part2 = some o ↔
        ∃ dd, m.completion_day_level.lookup day = some dd ∧
          ∃ ts, dd.part2_ts = some ts ∧ ts ≠ 0 ∧
            o = ts - getPuzzleUnlock day) := by
  rw [computeTimes_lookup m numDays day h1 h2]
  unfold timesEntry
  cases hdd : m.completion_day_level.lookup day with
  | none => simp
  | some dd =>
    simp only [Option.map_some', Option.some_bind, Option.some_inj]
    constructor <;> intro o <;> rw [offsetOf_eq_some_iff] <;>
      simp only [exists_and_left, exists_eq_left']

/-- A member solving day 1 part 1 at `unlock + 65` and part 2 at
`unlock + 130`, used as the C3 witness input. -/
def solvedMember : Member :=
  ⟨3, "S", 2, 5, 1764565330, [(1, ⟨some 1764565265, some 1764565330⟩)]⟩

/-- Witness for the amended C3 at a concrete member: the day-1 part-1
offset is present and equals `65` seconds. -/
theorem offset_present_iff_ts_truthy_witness :
    ((computeTimes solvedMember 1).lookup 1).bind DayTimes.part1 = some 65 :=
  ((offset_present_iff_ts_truthy solvedMember 1 1 (by decide) (by decide)).1
      65).mpr
    ⟨⟨some 1764565265, some 1764565330⟩, by decide, 1764565265, by decide,
      by decide, by decide⟩

/-- `jsRound` rounds to a nearest integer: the result is within half a
unit of the argument. -/
lemma jsRound_nearest (q : ℚ) : |(jsRound q : ℚ) - q| ≤ 1 / 2 := by
  unfold jsRound
  rw [abs_le]
  constructor
  · have h := Int.lt_floor_add_one (q + 1 / 2)
    push_cast at h ⊢
    linarith
  · have h := Int.floor_le (q + 1 / 2)
    push_cast at h ⊢
    linarith

/-- Three participants whose day-1 part-1 offsets are 10, 20 and 21
seconds, with no part-2 completions: the spec's mean-17.0 sample. -/
def meanExampleStats : List MemberStats :=
  [⟨"P1", 0, 0, [(1, ⟨some 10, none⟩)]⟩,
   ⟨"P2", 0, 0, [(1, ⟨some 20, none⟩)]⟩,
   ⟨"P3", 0, 0, [(1, ⟨some 21, none⟩)]⟩]

/-- C4: each day's per-part average is taken over exactly the
participants whose offset for that part is present (the two parts
independently); with zero present offsets the average is absent, and with
at least one it is present and within half a second of the arithmetic
mean (rounding to nearest); on part-1 offsets 10, 20, 21 it is exactly
17, while the part-2 average of that day is absent. -/
theorem day_average_mean (stats : List MemberStats) (day : ℕ) :
    (presentP1 stats day = [] → (dayAvg stats day).1 = none) ∧
    (presentP2 stats day = [] → (dayAvg stats day).2 = none) ∧
    (∀ r : ℤ, (dayAvg stats day).1 = some r →
      presentP1 stats day ≠ [] ∧
      |(r : ℚ) - ((presentP1 stats day).sum : ℚ) /
          ((presentP1 stats day).length : ℚ)| ≤ 1 / 2) ∧
    (∀ r : ℤ, (dayAvg stats day).2 = some r →
      presentP2 stats day ≠ [] ∧
      |(r : ℚ) - ((presentP2 stats day).sum : ℚ) /
          ((presentP2 stats day).length : ℚ)| ≤ 1 / 2) ∧
    presentP1 meanExampleStats 1 = [10, 20, 21] ∧
    (dayAvg meanExampleStats 1).1 = some 17 ∧
    presentP2 meanExampleStats 1 = [] ∧
    (dayAvg meanExampleStats 1).2 = none := by
  have havg : ∀ l : List ℤ, ∀ r : ℤ, avgOf l = some r →
      l ≠ [] ∧ |(r : ℚ) - (l.sum : ℚ) / (l.length : ℚ)| ≤ 1 / 2 := by
    intro l r h
    unfold avgOf at h
    rcases eq_or_ne l.length 0 with hl | hl
    · rw [if_pos hl] at h
      exact absurd h (by simp)
    · rw [if_neg hl] at h
      refine ⟨fun hnil => hl (by simp [hnil]), ?_⟩
      cases h
      exact jsRound_nearest _
  have h10 : presentP1 meanExampleStats 1 = [10, 20, 21] := by decide
  refine ⟨fun h => ?_, fun h => ?_, fun r => havg _ r, fun r => havg _ r,
    h10, ?_, by decide, by decide⟩
  · show avgOf (presentP1 stats day) = none
    rw [h]
    rfl
  · show avgOf (presentP2 stats day) = none
    rw [h]
    rfl
  · show avgOf (presentP1 meanExampleStats 1) = some 17
    rw [h10]
    simp only [avgOf, jsRound, List.sum_cons, List.sum_nil, List.length_cons,
      List.length_nil]
    norm_num

/-- Modelled from the spec: the round-half-away-from-zero rule that §4.4
names as one of the two permitted tie-breaking rules (absent from the
source, which delegates to the host's `Math.round`). -/
def roundHalfAwayFromZero (q : ℚ) : ℤ :=
  if 0 ≤ q then ⌊q + 1 / 2⌋ else -⌊-q + 1 / 2⌋

/-- Modelled from the spec: the round-half-to-even rule that §4.4 names
as the other permitted tie-breaking rule (absent from the source, which
delegates to the host's `Math.round`). -/
def roundHalfToEven (q : ℚ) : ℤ :=
  if q - ⌊q⌋ = 1 / 2 then (if 2 ∣ ⌊q⌋ then ⌊q⌋ else ⌊q⌋ + 1)
  else ⌊q + 1 / 2⌋

/-- A snapshot whose two members completed day-1 part 1 one and two
seconds *before* the unlock instant (inconsistent upstream data, treated
as valid arithmetic): their offsets are -1 and -2, mean -3/2. -/
def negData : LeaderboardData :=
  ⟨"2025", 0,
   [(1, ⟨1, "N1", 1, 2, 1764565199, [(1, ⟨some 1764565199, none⟩)]⟩),
    (2, ⟨2, "N2", 1, 1, 1764565198, [(1, ⟨some 1764565198, none⟩)]⟩)],
   1, 0⟩

/-- Counterexample to C5 as stated: the day-1 part-1 offsets of `negData`
are -1 and -2, an exact .5 boundary with mean -3/2; the program's average
is -1 (`Math.round` rounds halves toward positive infinity), while
round-half-away-from-zero and round-half-to-even both give -2, so the
rounding rule is neither of the two the claim permits. -/
theorem rounding_rule_counterexample :
    presentP1 (buildStats negData) 1 = [-1, -2] ∧
    ((presentP1 (buildStats negData) 1).sum : ℚ) /
      ((presentP1 (buildStats negData) 1).length : ℚ) = -3 / 2 ∧
    (dayAvg (buildStats negData) 1).1 = some (-1) ∧
    roundHalfAwayFromZero (-3 / 2) = -2 ∧
    roundHalfToEven (-3 / 2) = -2 ∧
    (-1 : ℤ) ≠ -2 := by
  have h1 : presentP1 (buildStats negData) 1 = [-1, -2] := by decide
  refine ⟨h1, ?_, ?_, ?_, ?_, by decide⟩
  · rw [h1]
    norm_num
  · show avgOf (presentP1 (buildStats negData) 1) = some (-1)
    rw [h1]
    simp only [avgOf, jsRound, List.sum_cons, List.sum_nil, List.length_cons,
      List.length_nil]
    norm_num
  · unfold roundHalfAwayFromZero
    norm_num
  · unfold roundHalfToEven
    norm_num

/-- C5 as amended: every day-average mean is rounded by one single fixed
deterministic rule, ECMAScript `Math.round`'s round-half-toward-positive-
infinity (`⌊mean + 1/2⌋`): integers are left fixed, every exact .5
boundary — negative means included — rounds up toward positive infinity,
and negative offsets participate in averages as ordinary arithmetic, as
the `negData` average of offsets -1 and -2 evaluating to -1 shows. -/
theorem rounding_rule_amended (stats : List MemberStats) (day : ℕ) (n : ℤ) :
    (presentP1 stats day ≠ [] →
      (dayAvg stats day).1 = some ⌊((presentP1 stats day).sum : ℚ) /
        ((presentP1 stats day).length : ℚ) + 1 / 2⌋) ∧
    (presentP2 stats day ≠ [] →
      (dayAvg stats day).2 = some ⌊((presentP2 stats day).sum : ℚ) /
        ((presentP2 stats day).length : ℚ) + 1 / 2⌋) ∧
    jsRound ((n : ℚ) + 1 / 2) = n + 1 ∧
    jsRound ((n : ℚ)) = n ∧
    (dayAvg (buildStats negData) 1).1 = some (-1) := by
  have havg : ∀ l : List ℤ, l ≠ [] →
      avgOf l = some ⌊(l.sum : ℚ) / (l.length : ℚ) + 1 / 2⌋ := by
    intro l hl
    unfold avgOf jsRound
    rw [if_neg (fun h => hl (List.length_eq_zero.mp h))]
  refine ⟨fun h => havg _ h, fun h => havg _ h, ?_, ?_, ?_⟩
  · unfold jsRound
    have h : ((n : ℚ) + 1 / 2 + 1 / 2) = ((n + 1 : ℤ) : ℚ) := by
      push_cast
      ring
    rw [h, Int.floor_intCast]
  · unfold jsRound
    rw [Int.floor_eq_iff]
    constructor
    · linarith
    · linarith
  · have h1 : presentP1 (buildStats negData) 1 = [-1, -2] := by decide
    show avgOf (presentP1 (buildStats negData) 1) = some (-1)
    rw [h1]
    simp only [avgOf, jsRound, List.sum_cons, List.sum_nil, List.length_cons,
      List.length_nil]
    norm_num

/-- An emitted table records the day it was emitted for and that day's
ranked completion rows. -/
lemma tableFor_day (data : LeaderboardData) (x : ℕ) (t : DayTable)
    (h : tableFor data x = some t) :
    t.day = x ∧ t.rows = dayCompletions (buildStats data) x := by
  unfold tableFor at h
  dsimp only at h
  split at h
  · exact absurd h (by simp)
  · cases h
    exact ⟨rfl, rfl⟩

/-- No table for a day outside the iterated day list. -/
lemma countP_tables_of_not_mem (data : LeaderboardData) :
    ∀ (l : List ℕ) (d : ℕ), d ∉ l →
      ((l.filterMap (tableFor data)).countP fun t => t.day == d) = 0 := by
  intro l
  induction l with
  | nil => intro d _; rfl
  | cons x xs ih =>
    intro d hd
    have hdx : d ≠ x := fun h => hd (h ▸ List.mem_cons_self x xs)
    have hdxs : d ∉ xs := fun h => hd (List.mem_cons_of_mem x h)
    rw [List.filterMap_cons]
    cases hfx : tableFor data x with
    | none => exact ih d hdxs
    | some t =>
      rw [List.countP_cons]
      have ht : (t.day == d) = false :=
        beq_eq_false_iff_ne.mpr ((tableFor_day data x t hfx).1 ▸ Ne.symm hdx)
      rw [ht, ih d hdxs]
      rfl

/-- Exactly one table for a day of the (distinct) iterated day list whose
loop body emits one. -/
lemma countP_tables_of_mem (data : LeaderboardData) :
    ∀ (l : List ℕ), l.Nodup → ∀ d ∈ l, (tableFor data d).isSome →
      ((l.filterMap (tableFor data)).countP fun t => t.day == d) = 1 := by
  intro l
  induction l with
  | nil => intro _ d hd; exact absurd hd (List.not_mem_nil d)
  | cons x xs ih =>
    intro hnd d hd hsome
    have hx : x ∉ xs := (List.nodup_cons.mp hnd).1
    have hxs : xs.Nodup := (List.nodup_cons.mp hnd).2
    rw [List.filterMap_cons]
    rcases List.mem_cons.mp hd with rfl | hdxs
    · obtain ⟨t, ht⟩ := Option.isSome_iff_exists.mp hsome
      rw [ht, List.countP_cons]
      have htday : (t.day == d) = true :=
        beq_iff_eq.mpr (tableFor_day data d t ht).1
      rw [htday, countP_tables_of_not_mem data xs d hx]
      rfl
    · have hdx : d ≠ x := fun h => hx (h ▸ hdxs)
      cases hfx : tableFor data x with
      | none => exact ih hxs d hdxs hsome
      | some t =>
        rw [List.countP_cons]
        have ht : (t.day == d) = false :=
          beq_eq_false_iff_ne.mpr ((tableFor_day data x t hfx).1 ▸ Ne.symm hdx)
        rw [ht, ih hxs d hdxs hsome]
        rfl

/-- C1: for every in-range day: a day with no part-1 completion emits no
table; a day with at least one emits exactly one table, whose rows are a
permutation of exactly the completing rows, sorted ascending by the
day's part-1 offset; every row of the table comes from a participant
with a present part-1 offset for the day (so participants without one
are excluded entirely rather than ranked with a sentinel), and every
participant with a present part-1 offset contributes a row. -/
theorem per_day_tables_exact (data : LeaderboardData) (day : ℕ)
    (h1 : 1 ≤ day) (h2 : day ≤ data.num_days) :
    (dayCompletions (buildStats data) day = [] →
      ∀ t ∈ dailyTables data, t.day ≠ day) ∧
    (dayCompletions (buildStats data) day ≠ [] →
      ((dailyTables data).countP (fun t => t.day == day) = 1 ∧
       DayTable.mk day (dayCompletions (buildStats data) day)
           (dayAvg (buildStats data) day).1 (dayAvg (buildStats data) day).2
         ∈ dailyTables data ∧
       ∀ t ∈ dailyTables data, t.day = day →
         t.rows = dayCompletions (buildStats data) day)) ∧
    (dayCompletions (buildStats data) day).Perm
      (unsortedCompletions (buildStats data) day) ∧
    (dayCompletions (buildStats data) day).Sorted rowLe ∧
    (∀ r ∈ dayCompletions (buildStats data) day,
      ∃ m ∈ buildStats data, p1Offset m day = some r.p1 ∧
        r.name = m.name ∧ r.p2 = p2Offset m day) ∧
    (∀ m ∈ buildStats data, ∀ t : ℤ, p1Offset m day = some t →
      DayRow.mk m.name t (p2Offset m day) ∈
        dayCompletions (buildStats data) day) := by
  have hmemday : day ∈ List.range' 1 data.num_days :=
    List.mem_range'_1.mpr ⟨h1, by omega⟩
  have hperm := List.perm_insertionSort rowLe
    (unsortedCompletions (buildStats data) day)
  refine ⟨?_, ?_, hperm, ?_, ?_, ?_⟩
  · intro hrows t htmem htday
    obtain ⟨d, _, hfd⟩ := List.mem_filterMap.mp htmem
    have hd := (tableFor_day data d t hfd).1
    rw [htday] at hd
    rw [← hd] at hfd
    have : tableFor data day = none := by
      unfold tableFor
      rw [if_pos hrows]
    rw [this] at hfd
    cases hfd
  · intro hne
    have hT : tableFor data day =
        some (DayTable.mk day (dayCompletions (buildStats data) day)
          (dayAvg (buildStats data) day).1
          (dayAvg (buildStats data) day).2) := by
      unfold tableFor
      rw [if_neg hne]
    refine ⟨?_, ?_, ?_⟩
    · exact countP_tables_of_mem data (List.range' 1 data.num_days)
        (List.nodup_range' 1 data.num_days) day hmemday (by rw [hT]; rfl)
    · exact List.mem_filterMap.mpr ⟨day, hmemday, hT⟩
    · intro t htmem htday
      obtain ⟨d, _, hfd⟩ := List.mem_filterMap.mp htmem
      obtain ⟨hd, hrows⟩ := tableFor_day data d t hfd
      rw [htday] at hd
      rw [← hd] at hrows
      exact hrows
  · haveI : IsTotal DayRow rowLe := ⟨fun a b => Int.le_total a.p1 b.p1⟩
    haveI : IsTrans DayRow rowLe := ⟨fun a b c => Int.le_trans⟩
    exact List.sorted_insertionSort rowLe _
  · intro r hr
    have hru : r ∈ unsortedCompletions (buildStats data) day :=
      hperm.mem_iff.mp hr
    obtain ⟨m, hm, hmr⟩ := List.mem_filterMap.mp hru
    cases hoff : p1Offset m day with
    | none => rw [hoff] at hmr; cases hmr
    | some t =>
      rw [hoff] at hmr
      cases hmr
      exact ⟨m, hm, hoff, rfl, rfl⟩
  · intro m hm t hoff
    have : DayRow.mk m.name t (p2Offset m day) ∈
        unsortedCompletions (buildStats data) day :=
      List.mem_filterMap.mpr ⟨m, hm, by rw [hoff]⟩
    exact hperm.mem_iff.mpr this

/-- The spec's end-to-end scenario (§8): one day, participant A solving
part 1 at `unlock + 65` and part 2 at `unlock + 130`, participant B
solving only part 1 at `unlock + 10`. -/
def endToEndData : LeaderboardData :=
  ⟨"2025", 0,
   [(1, ⟨1, "A", 2, 3, 1764565330,
         [(1, ⟨some 1764565265, some 1764565330⟩)]⟩),
    (2, ⟨2, "B", 1, 1, 1764565210, [(1, ⟨some 1764565210, none⟩)]⟩)],
   1, 0⟩

/-- Witness for C1 at the end-to-end snapshot: day 1 has completions, and
the emitted tables contain the day-1 table with that day's ranked rows
and averages. -/
theorem per_day_tables_exact_witness :
    DayTable.mk 1 (dayCompletions (buildStats endToEndData) 1)
        (dayAvg (buildStats endToEndData) 1).1
        (dayAvg (buildStats endToEndData) 1).2 ∈ dailyTables endToEndData :=
  ((per_day_tables_exact endToEndData 1 (by decide) (by decide)).2.1
    (by decide)).2.1

/-- C8: a non-success transport status makes the run fail: the failure
line carries the numeric status and the status text, the process exits
with code 1 (non-zero) before any leaderboard row or per-day table is
produced, and exactly one fetch was issued (no retry); a run whose body
renders successfully exits with code 0. -/
theorem fetch_failure_is_fatal (r : FetchResponse) :
    (responseOk r = false →
      (runMain r).exitCode = 1 ∧ (runMain r).exitCode ≠ 0 ∧
      (runMain r).errorOutput =
        ["Failed to fetch: " ++ toString r.status ++ " " ++ r.statusText] ∧
      (runMain r).leaderboardRows = [] ∧ (runMain r).tables = [] ∧
      (runMain r).fetchCount = 1) ∧
    (∀ data : LeaderboardData, responseOk r = true →
      r.body = Except.ok data →
      (runMain r).exitCode = 0 ∧ (runMain r).fetchCount = 1) := by
  constructor
  · intro h
    simp [runMain, h]
  · intro data hok hbody
    simp [runMain, hok, hbody]

/-- C10 (implicit): when the fetch itself succeeds but reading or
processing the payload throws, `main`'s rejected promise is caught by the
top-level `.catch(console.error)`: the error is only printed, no table is
rendered, and the process terminates with exit code 0 — the same exit
code as a successful rendering run. -/
theorem post_fetch_error_exits_zero (r : FetchResponse) (e : String) :
    (responseOk r = true → r.body = Except.error e →
      (runMain r).exitCode = 0 ∧ (runMain r).errorOutput = [e] ∧
      (runMain r).leaderboardRows = [] ∧ (runMain r).tables = []) ∧
    (∀ data : LeaderboardData, responseOk r = true →
      r.body = Except.ok data → (runMain r).exitCode = 0) := by
  constructor
  · intro hok hbody
    simp [runMain, hok, hbody]
  · intro data hok hbody
    simp [runMain, hok, hbody]

end AocTimes
